import Mathlib

/-!
# Shakaika membership app: verification of the CRUD data/authorization model

Shallow embedding of the Hono/D1 web application (src/src/index.tsx and the
later revision src/unnamed/part_000).  JavaScript strings are modelled as
`List Char`; database tables as Lean lists of row structures; each HTTP
handler as a pure function from the relevant state and request fields to an
`ApiResult` together with the updated state.  Where the two revisions differ
(in-memory token map vs. `sessions` table; presence of the `school` column)
the later revision, src/unnamed/part_000, is embedded; the claim-relevant
logic is identical in both.
-/

set_option maxHeartbeats 1000000

namespace Shakaika

/-- Outcome of a request handler: success, a 400 validation error with its
message, or a 404 not-found error with its message. -/
inductive ApiResult where
  | ok
  | badRequest (msg : List Char)
  | notFound (msg : List Char)
deriving DecidableEq

/-- A row of the `users` table (part_000 revision, which has `school`).
`password_hash` stores the result of `hashPassword`. -/
structure UserRow where
  id : Nat
  name : List Char
  school : List Char
  email : List Char
  password_hash : List Char
  role : List Char
  created_at : List Char
deriving DecidableEq

/-- A row of the `selections` table. `step` is an SQL INTEGER
(CHECK(step BETWEEN 1 AND 4) in the schema); `id` and `updated_at` are
omitted: no endpoint reads them back other than echoing `updated_at`. -/
structure SelRow where
  user_id : Nat
  viewpoint : List Char
  step : Int
  memo : List Char
deriving DecidableEq

/-- A row of the `sessions` table (`token` is the primary key);
`expires` is the expiry instant on the code's time axis
(`Date.now()` milliseconds). -/
structure Session where
  token : List Char
  user_id : Nat
  expires : Int
deriving DecidableEq

/-- A row of the `events` table (fields the embedded endpoints read). -/
structure EventRow where
  id : Nat
  title : List Char
  event_code : List Char
  is_active : Bool
deriving DecidableEq

/-- A row of the `attendances` table (`UNIQUE(event_id, user_id)`). -/
structure Attendance where
  event_id : Nat
  user_id : Nat
  attended_at : List Char
deriving DecidableEq

/-- `validViewpoints` from POST /api/selections: the five fixed viewpoints. -/
def validViewpoints : List (List Char) :=
  ["lesson_plan".toList, "lesson_practice".toList, "student_eval".toList,
   "connection".toList, "research".toList]

/-- role string 'member'. -/
def roleMember : List Char := "member".toList

/-- role string 'admin'. -/
def roleAdmin : List Char := "admin".toList

/-- The token stored for a key matches iff user id and viewpoint both match:
the `UNIQUE(user_id, viewpoint)` key of `selections`. -/
def selKey (uid : Nat) (vp : List Char) (s : SelRow) : Bool :=
  s.user_id == uid && s.viewpoint == vp

/-- Two selection rows collide on the `UNIQUE(user_id, viewpoint)` key. -/
def sameSelKey (a b : SelRow) : Bool :=
  a.user_id == b.user_id && a.viewpoint == b.viewpoint

/-- The database invariant enforced by `UNIQUE(user_id, viewpoint)`:
no two rows share a key. -/
def selKeyUnique (l : List SelRow) : Prop :=
  l.Pairwise (fun a b => sameSelKey a b = false)

/-- `INSERT INTO selections ... ON CONFLICT(user_id, viewpoint) DO UPDATE SET
step = excluded.step, memo = excluded.memo`: if a row with the key exists it
is overwritten in place, otherwise a new row is appended. -/
def upsertSelection (sels : List SelRow) (uid : Nat) (vp : List Char)
    (step : Int) (memo : List Char) : List SelRow :=
  if sels.any (selKey uid vp) then
    sels.map (fun s => if selKey uid vp s then ⟨uid, vp, step, memo⟩ else s)
  else
    sels ++ [⟨uid, vp, step, memo⟩]

/-- error message '不正な選択です' of POST /api/selections. -/
def errInvalidSelection : List Char := "不正な選択です".toList

/-- error message '不正な視点です' of POST /api/selections. -/
def errInvalidViewpoint : List Char := "不正な視点です".toList

/-- POST /api/selections for an authenticated user `uid`.
The request's `step` is a JSON number (`!step || step < 1 || step > 4`
rejects; the falsy value 0 is written out even though `step < 1` subsumes
it); `memo` may be absent (`memo || ''`). -/
def postSelections (sels : List SelRow) (uid : Nat) (vp : List Char)
    (step : Int) (memo : Option (List Char)) : ApiResult × List SelRow :=
  if vp = [] ∨ step = 0 ∨ step < 1 ∨ step > 4 then
    (ApiResult.badRequest errInvalidSelection, sels)
  else if vp ∉ validViewpoints then
    (ApiResult.badRequest errInvalidViewpoint, sels)
  else
    (ApiResult.ok, upsertSelection sels uid vp step (memo.getD []))

/-- DELETE /api/selections/:viewpoint for an authenticated user `uid`:
`DELETE FROM selections WHERE user_id = ? AND viewpoint = ?`, then
`{ success: true }` unconditionally. -/
def deleteSelection (sels : List SelRow) (uid : Nat) (vp : List Char) :
    ApiResult × List SelRow :=
  (ApiResult.ok, sels.filter (fun s => !selKey uid vp s))

/-- `getUserIdFromToken`: look the token up in the `sessions` store; if the
entry's expiry instant is strictly before `now` the entry is deleted on
sight and the lookup fails (`null`).  Returns the resolved user id (if any)
together with the session store after the call.  (index.tsx checks
`Date.now() > entry.expires`, part_000 checks `expires_at < now`: both
reject exactly when `expires < now`.) -/
def getUserIdFromToken (sessions : List Session) (token : List Char)
    (now : Int) : Option Nat × List Session :=
  match sessions.find? (fun s => s.token == token) with
  | none => (none, sessions)
  | some s =>
    if s.expires < now then
      (none, sessions.filter (fun r => !(r.token == token)))
    else
      (some s.user_id, sessions)

/-- Outcome of `authMiddleware`. -/
inductive AuthResult where
  | ok (u : UserRow)
  | unauthorized (msg : List Char)
deriving DecidableEq

/-- error message 'ログインが必要です' (401, missing/malformed header). -/
def errLoginRequired : List Char := "ログインが必要です".toList

/-- error message 'セッションが無効です。再ログインしてください' (401). -/
def errSessionInvalid : List Char :=
  "セッションが無効です。再ログインしてください".toList

/-- error message 'ユーザーが見つかりません' (401). -/
def errUserNotFound : List Char := "ユーザーが見つかりません".toList

/-- `authMiddleware`: reject when the Authorization header is absent (modelled
as `token = none`), when the token does not resolve (`!userId` is also true
for the JS-falsy id 0), or when no user row carries the resolved id.
Returns the outcome and the session store after the call. -/
def authMiddleware (users : List UserRow) (sessions : List Session)
    (token : Option (List Char)) (now : Int) : AuthResult × List Session :=
  match token with
  | none => (AuthResult.unauthorized errLoginRequired, sessions)
  | some t =>
    match getUserIdFromToken sessions t now with
    | (none, sessions') => (AuthResult.unauthorized errSessionInvalid, sessions')
    | (some uid, sessions') =>
      if uid = 0 then (AuthResult.unauthorized errSessionInvalid, sessions')
      else
        match users.find? (fun u => u.id == uid) with
        | none => (AuthResult.unauthorized errUserNotFound, sessions')
        | some u => (AuthResult.ok u, sessions')

/-- `hashPassword` appends the fixed application-wide salt and digests with
SHA-256.  The digest itself is irrelevant to every claim, so the model keeps
only the salting step (an injective placeholder for the hex digest). -/
def hashPassword (password : List Char) : List Char :=
  password ++ "_shakaika_salt_2026".toList

/-- Outcome of POST /api/auth/register. -/
inductive RegResult where
  | ok (token : List Char) (u : UserRow)
  | err (msg : List Char)
deriving DecidableEq

/-- error message '名前・学校名・メールアドレス・パスワードは必須です'. -/
def errRegRequired : List Char :=
  "名前・学校名・メールアドレス・パスワードは必須です".toList

/-- error message 'パスワードは4文字以上にしてください'. -/
def errRegPassword : List Char := "パスワードは4文字以上にしてください".toList

/-- error message 'このメールアドレスは既に登録されています'. -/
def errRegDuplicate : List Char := "このメールアドレスは既に登録されています".toList

/-- POST /api/auth/register (part_000 revision, which also requires
`school`).  Absent JSON fields are modelled as the falsy empty string.
`newId` stands for the AUTOINCREMENT id (`result.meta.last_row_id`),
`tok` for the freshly generated random token, `createdAt` for the
row's CURRENT_TIMESTAMP default.  Returns the outcome and the users
table after the call. -/
def register (users : List UserRow) (newId : Nat) (tok : List Char)
    (createdAt : List Char) (name school email password : List Char) :
    RegResult × List UserRow :=
  if name = [] ∨ school = [] ∨ email = [] ∨ password = [] then
    (RegResult.err errRegRequired, users)
  else if password.length < 4 then
    (RegResult.err errRegPassword, users)
  else
    match users.find? (fun u => u.email == email) with
    | some _ => (RegResult.err errRegDuplicate, users)
    | none =>
      let u : UserRow :=
        ⟨newId, name, school, email, hashPassword password, roleMember, createdAt⟩
      (RegResult.ok tok u, users ++ [u])

/-- error message '自分自身は削除できません'. -/
def errSelfDelete : List Char := "自分自身は削除できません".toList

/-- DELETE /api/admin/members/:id (admin caller `callerId`): forbid
self-deletion; otherwise `DELETE FROM selections WHERE user_id = ?` and
then `DELETE FROM users WHERE id = ?`. -/
def deleteMember (users : List UserRow) (sels : List SelRow)
    (callerId targetId : Nat) : ApiResult × List UserRow × List SelRow :=
  if callerId = targetId then
    (ApiResult.badRequest errSelfDelete, users, sels)
  else
    (ApiResult.ok,
     users.filter (fun u => !(u.id == targetId)),
     sels.filter (fun s => !(s.user_id == targetId)))

/-- error message '不正な役割です'. -/
def errInvalidRole : List Char := "不正な役割です".toList

/-- PUT /api/admin/members/:id/role: validate the new role against
['member', 'admin'], then `UPDATE users SET role = ? WHERE id = ?`. -/
def updateRole (users : List UserRow) (targetId : Nat) (role : List Char) :
    ApiResult × List UserRow :=
  if role ∉ [roleMember, roleAdmin] then
    (ApiResult.badRequest errInvalidRole, users)
  else
    (ApiResult.ok,
     users.map (fun u => if u.id == targetId then { u with role := role } else u))

/-- error message 'イベントが見つかりません'. -/
def errEventNotFound : List Char := "イベントが見つかりません".toList

/-- POST /api/events/:code/attend: look up the active event by its code,
404 if absent, otherwise `INSERT OR IGNORE INTO attendances` keyed on
`UNIQUE(event_id, user_id)`: the row is appended only when no row with
that key exists.  `now` is the `datetime('now')` timestamp. -/
def attend (events : List EventRow) (atts : List Attendance)
    (code : List Char) (uid : Nat) (now : List Char) :
    ApiResult × List Attendance :=
  match events.find? (fun e => e.event_code == code && e.is_active) with
  | none => (ApiResult.notFound errEventNotFound, atts)
  | some e =>
    if atts.any (fun a => a.event_id == e.id && a.user_id == uid) then
      (ApiResult.ok, atts)
    else
      (ApiResult.ok, atts ++ [⟨e.id, uid, now⟩])

/-! ## String machinery shared by GROUP_CONCAT parsing and CSV export

JavaScript's `Array.prototype.join(sep)` and SQLite's two-argument
`GROUP_CONCAT(x, sep)` both concatenate the pieces with `sep` between
consecutive pieces. -/

/-- `pieces.join(sep)` / `GROUP_CONCAT(piece, sep)`. -/
def joinSep (sep : List Char) : List (List Char) → List Char
  | [] => []
  | [a] => a
  | a :: b :: rest => a ++ sep ++ joinSep sep (b :: rest)

/-- JavaScript `s.split('||')`: scan left to right for non-overlapping
occurrences of the two-character separator. -/
def splitBars : List Char → List (List Char)
  | [] => [[]]
  | [c] => [[c]]
  | c :: d :: rest =>
    if c = '|' ∧ d = '|' then [] :: splitBars rest
    else
      match splitBars (d :: rest) with
      | [] => [[c]]
      | r :: rs => (c :: r) :: rs

/-- JavaScript `s.split(':')`. -/
def splitColon : List Char → List (List Char)
  | [] => [[]]
  | c :: rest =>
    if c = ':' then [] :: splitColon rest
    else
      match splitColon rest with
      | [] => [[c]]
      | r :: rs => (c :: r) :: rs

/-- A piece is safe w.r.t. the '||' separator when it contains no two
consecutive bars and does not end in a bar (either would merge with the
following separator and shift the split, see `splitBars_append`). -/
def barSafe : List Char → Bool
  | [] => true
  | [c] => c != '|'
  | c :: d :: rest => if c = '|' ∧ d = '|' then false else barSafe (d :: rest)

/-- Leading decimal digits of a string. -/
def leadingDigits : List Char → List Char
  | [] => []
  | c :: rest => if c.isDigit then c :: leadingDigits rest else []

/-- Value of a digit string. -/
def digitsToNat (l : List Char) : Nat :=
  l.foldl (fun a c => a * 10 + (c.toNat - 48)) 0

/-- JavaScript `parseInt(s)` restricted to the shapes that occur here
(no sign or whitespace handling; every parsed string in this code is the
decimal rendering of a stored step).  `none` stands for `NaN`. -/
def jsParseInt (s : List Char) : Option Nat :=
  if leadingDigits s = [] then none else some (digitsToNat (leadingDigits s))

/-- Decimal rendering of a stored step, as GROUP_CONCAT casts INTEGER to
TEXT. -/
def stepChars (step : Int) : List Char := (toString step).toList

/-! ## GET /api/admin/members: GROUP_CONCAT serialisation and its parsing -/

/-- One concatenand of the GROUP_CONCAT:
`s.viewpoint || ':' || s.step || ':' || COALESCE(s.memo,'')`. -/
def selPiece (s : SelRow) : List Char :=
  s.viewpoint ++ ':' :: stepChars s.step ++ ':' :: s.memo

/-- The SQL side of GET /api/admin/members for one user:
`GROUP_CONCAT(selPiece, '||')` over the user's selection rows (NULL,
i.e. `[]` here, when there are none). -/
def selConcat (sels : List SelRow) (uid : Nat) : List Char :=
  joinSep ('|' :: ['|']) ((sels.filter (fun s => s.user_id == uid)).map selPiece)

/-- One entry of the per-user `selections` object the endpoint returns:
`selections[vp] = { step: parseInt(stepStr), memo: memoParts.join(':') }`.
`step = none` stands for `NaN`. -/
structure ParsedSel where
  viewpoint : List Char
  step : Option Nat
  memo : List Char
deriving DecidableEq

/-- JavaScript object assignment `selections[vp] = e`: overwrite the entry
with that key if present, otherwise append (string keys keep insertion
order). -/
def setEntry (m : List ParsedSel) (e : ParsedSel) : List ParsedSel :=
  if m.any (fun x => x.viewpoint == e.viewpoint) then
    m.map (fun x => if x.viewpoint == e.viewpoint then e else x)
  else
    m ++ [e]

/-- The loop body of GET /api/admin/members: destructure one '||'-piece on
':' as `[vp, stepStr, ...memoParts]` and record it only when `vp` and
`stepStr` are truthy (non-empty), with `memo = memoParts.join(':')`. -/
def parseStep (acc : List ParsedSel) (piece : List Char) : List ParsedSel :=
  match splitColon piece with
  | vp :: stepStr :: memoParts =>
    if vp ≠ [] ∧ stepStr ≠ [] then
      setEntry acc ⟨vp, jsParseInt stepStr, joinSep [':'] memoParts⟩
    else acc
  | _ => acc

/-- The JS side of GET /api/admin/members for one user: a falsy raw string
gives the empty object, otherwise split the raw GROUP_CONCAT string on '||'
and fold the pieces into the selections object. -/
def parseSelectionsRaw (raw : List Char) : List ParsedSel :=
  if raw = [] then [] else (splitBars raw).foldl parseStep []

/-- GET /api/admin/members, the `selections` mapping computed for user
`uid` from the selections table. -/
def memberSelections (sels : List SelRow) (uid : Nat) : List ParsedSel :=
  parseSelectionsRaw (selConcat sels uid)

/-- The entry a stored selection row should produce. -/
def toParsed (s : SelRow) : ParsedSel :=
  ⟨s.viewpoint, some s.step.toNat, s.memo⟩

/-! ## GET /api/admin/export: member CSV -/

/-- `vpLabels`: the Japanese label of each of the five fixed viewpoints
(only ever applied to members of `validViewpoints`). -/
def vpLabel (vp : List Char) : List Char :=
  if vp = "lesson_plan".toList then "授業をつくる".toList
  else if vp = "lesson_practice".toList then "授業をする".toList
  else if vp = "student_eval".toList then "子供を見る".toList
  else if vp = "connection".toList then "つながる".toList
  else if vp = "research".toList then "深める".toList
  else []

/-- `stepLabels[step] || STEP${step}`: fixed label for steps 1-4, generic
fallback otherwise. -/
def stepLabel (step : Int) : List Char :=
  if step = 1 then "STEP1(まずはここから)".toList
  else if step = 2 then "STEP2(自分で工夫する)".toList
  else if step = 3 then "STEP3(みんなと高める)".toList
  else if step = 4 then "STEP4(未来を創る)".toList
  else "STEP".toList ++ stepChars step

/-- `m.role === 'admin' ? '管理者' : '会員'`. -/
def roleLabel (role : List Char) : List Char :=
  if role = roleAdmin then "管理者".toList else "会員".toList

/-- The `selMap` lookup of the export: the selection row of `(uid, vp)`,
if any.  (The source builds a map keyed on `(user_id, viewpoint)` by
last-write-wins; under `UNIQUE(user_id, viewpoint)` at most one row per key
exists, so taking the first match is the same lookup.) -/
def selFor (sels : List SelRow) (uid : Nat) (vp : List Char) : Option SelRow :=
  sels.find? (selKey uid vp)

/-- The CSV header record: the four base columns of part_000 plus, per
viewpoint in the fixed order, a step column and a memo column. -/
def csvHeaders : List (List Char) :=
  ["名前".toList, "学校名".toList, "メールアドレス".toList, "役割".toList,
   "登録日".toList] ++
  validViewpoints.flatMap (fun vp =>
    [vpLabel vp ++ "(ステップ)".toList, vpLabel vp ++ "(メモ)".toList])

/-- The two CSV cells of one viewpoint for one member: the step label and
the memo when a selection exists, `未選択` and the empty field otherwise. -/
def selCells (sels : List SelRow) (uid : Nat) (vp : List Char) :
    List (List Char) :=
  match selFor sels uid vp with
  | some s => [stepLabel s.step, s.memo]
  | none => ["未選択".toList, []]

/-- One member's CSV record: base fields, then the two cells per viewpoint
in the fixed order. -/
def memberCsvRow (sels : List SelRow) (u : UserRow) : List (List Char) :=
  [u.name, u.school, u.email, roleLabel u.role, u.created_at] ++
  validViewpoints.flatMap (selCells sels u.id)

/-- All records of the export: the header record, then one data record per
user row. -/
def csvRecords (users : List UserRow) (sels : List SelRow) :
    List (List (List Char)) :=
  csvHeaders :: users.map (memberCsvRow sels)

/-- `v.replace(/"/g, '""')`: double every double-quote character. -/
def escQuote : List Char → List Char
  | [] => []
  | c :: rest =>
    if c = '"' then '"' :: '"' :: escQuote rest else c :: escQuote rest

/-- Inverse of `escQuote`: collapse doubled quotes. -/
def unescQuote : List Char → List Char
  | [] => []
  | [c] => [c]
  | c :: d :: rest =>
    if c = '"' ∧ d = '"' then '"' :: unescQuote rest
    else c :: unescQuote (d :: rest)

/-- A CSV field: the value, quote-doubled, enclosed in double quotes. -/
def renderField (v : List Char) : List Char :=
  '"' :: escQuote v ++ ['"']

/-- A CSV line: the record's fields rendered and joined with ','. -/
def renderLine (r : List (List Char)) : List Char :=
  joinSep [','] (r.map renderField)

/-- The byte-order mark `'﻿'` prepended for spreadsheet compatibility. -/
def bomChar : Char := Char.ofNat 0xFEFF

/-- GET /api/admin/export: the BOM, then every record rendered as a line
terminated by a newline. -/
def csvExport (users : List UserRow) (sels : List SelRow) : List Char :=
  bomChar :: (csvRecords users sels).flatMap (fun r => renderLine r ++ ['\n'])

/-! ## Helper lemmas -/

/-- A valid viewpoint is non-empty (so the `!viewpoint` guard never fires on
one). -/
theorem validViewpoint_ne_nil {vp : List Char} (h : vp ∈ validViewpoints) :
    vp ≠ [] := by
  fin_cases h <;> decide

/-- On a valid viewpoint and an in-range step, POST /api/selections passes
both guards and performs the upsert. -/
theorem postSelections_valid (sels : List SelRow) (uid : Nat) (vp : List Char)
    (step : Int) (memo : Option (List Char)) (hvp : vp ∈ validViewpoints)
    (hlo : 1 ≤ step) (hhi : step ≤ 4) :
    postSelections sels uid vp step memo =
      (ApiResult.ok, upsertSelection sels uid vp step (memo.getD [])) := by
  unfold postSelections
  have h0 : ¬(vp = [] ∨ step = 0 ∨ step < 1 ∨ step > 4) := by
    push_neg
    exact ⟨validViewpoint_ne_nil hvp, by omega, by omega, by omega⟩
  rw [if_neg h0, if_neg (not_not_intro hvp)]

/-- The new row matches its own key. -/
theorem selKey_self (uid : Nat) (vp : List Char) (step : Int)
    (memo : List Char) : selKey uid vp ⟨uid, vp, step, memo⟩ = true := by
  simp [selKey]

/-- A row matching `selKey uid vp` has exactly that key. -/
theorem selKey_eq {uid : Nat} {vp : List Char} {s : SelRow}
    (h : selKey uid vp s = true) : s.user_id = uid ∧ s.viewpoint = vp := by
  simpa [selKey] using h

/-- Overwriting in place does not change a row's key. -/
theorem sameSelKey_of_selKey {uid : Nat} {vp : List Char} {a b : SelRow}
    (ha : selKey uid vp a = true) (hb : selKey uid vp b = true) :
    sameSelKey a b = true := by
  obtain ⟨ha1, ha2⟩ := selKey_eq ha
  obtain ⟨hb1, hb2⟩ := selKey_eq hb
  simp [sameSelKey, ha1, ha2, hb1, hb2]

/-- If no row of `l` matches the key, filtering `l` by it yields nothing. -/
theorem filter_key_nil {l : List SelRow} {uid : Nat} {vp : List Char}
    (h : ∀ b ∈ l, selKey uid vp b = false) : l.filter (selKey uid vp) = [] := by
  induction l with
  | nil => rfl
  | cons a t ih =>
    rw [List.filter_cons_of_neg (by simp [h a (List.mem_cons_self a t)]),
      ih (fun b hb => h b (List.mem_cons_of_mem a hb))]

/-- If no row of `l` matches the key, the overwriting map of the upsert
leaves `l` unchanged. -/
theorem map_overwrite_id {l : List SelRow} {uid : Nat} {vp : List Char}
    {new : SelRow} (h : ∀ b ∈ l, selKey uid vp b = false) :
    (l.map fun s => if selKey uid vp s then new else s) = l := by
  induction l with
  | nil => rfl
  | cons a t ih =>
    simp only [List.map_cons]
    rw [if_neg (by simp [h a (List.mem_cons_self a t)]),
      ih (fun b hb => h b (List.mem_cons_of_mem a hb))]

/-- Under the `UNIQUE(user_id, viewpoint)` invariant, the upserted table's
rows with the upsert key are exactly the single fresh row. -/
theorem upsertSelection_filter_key (sels : List SelRow) (uid : Nat)
    (vp : List Char) (step : Int) (memo : List Char)
    (hwf : selKeyUnique sels) :
    (upsertSelection sels uid vp step memo).filter (selKey uid vp) =
      [⟨uid, vp, step, memo⟩] := by
  induction sels with
  | nil =>
    simp [upsertSelection, List.filter_cons_of_pos, selKey_self]
  | cons h t ih =>
    rw [selKeyUnique, List.pairwise_cons] at hwf
    obtain ⟨hh, ht⟩ := hwf
    by_cases hk : selKey uid vp h = true
    · have htno : ∀ b ∈ t, selKey uid vp b = false := by
        intro b hb
        cases hx : selKey uid vp b with
        | false => rfl
        | true =>
          have := sameSelKey_of_selKey hk hx
          rw [hh b hb] at this
          exact absurd this (by simp)
      have hany : (h :: t).any (selKey uid vp) = true := by
        simp [List.any_cons, hk]
      unfold upsertSelection
      rw [if_pos hany]
      simp only [List.map_cons, if_pos hk]
      rw [List.filter_cons_of_pos (selKey_self uid vp step memo),
        map_overwrite_id htno, filter_key_nil htno]
    · have hkf : selKey uid vp h = false := by
        cases hx : selKey uid vp h with
        | false => rfl
        | true => exact absurd hx hk
      by_cases hat : t.any (selKey uid vp) = true
      · have hany : (h :: t).any (selKey uid vp) = true := by
          simp [List.any_cons, hat]
        unfold upsertSelection
        rw [if_pos hany]
        simp only [List.map_cons, if_neg hk]
        rw [List.filter_cons_of_neg (by simp [hkf])]
        have hres := ih ht
        unfold upsertSelection at hres
        rw [if_pos hat] at hres
        exact hres
      · have htno : ∀ b ∈ t, selKey uid vp b = false := by
          intro b hb
          cases hx : selKey uid vp b with
          | false => rfl
          | true => exact absurd (List.any_eq_true.mpr ⟨b, hb, hx⟩) hat
        have hatf : t.any (selKey uid vp) = false := by
          cases hx : t.any (selKey uid vp) with
          | false => rfl
          | true => exact absurd hx hat
        have hany : ¬((h :: t).any (selKey uid vp) = true) := by
          simp [List.any_cons, hkf, hatf]
        unfold upsertSelection
        rw [if_neg hany]
        rw [List.cons_append, List.filter_cons_of_neg (by simp [hkf]),
          List.filter_append, filter_key_nil htno,
          List.filter_cons_of_pos (selKey_self uid vp step memo)]
        rfl

/-- `sameSelKey` against the fresh row is just `selKey`. -/
theorem sameSelKey_new (a : SelRow) (uid : Nat) (vp : List Char) (step : Int)
    (memo : List Char) :
    sameSelKey a ⟨uid, vp, step, memo⟩ = selKey uid vp a := by
  simp [sameSelKey, selKey]

/-- The upsert preserves the `UNIQUE(user_id, viewpoint)` invariant: no
second row with the same key ever appears. -/
theorem upsertSelection_keyUnique (sels : List SelRow) (uid : Nat)
    (vp : List Char) (step : Int) (memo : List Char)
    (hwf : selKeyUnique sels) :
    selKeyUnique (upsertSelection sels uid vp step memo) := by
  unfold upsertSelection
  by_cases hany : sels.any (selKey uid vp) = true
  · rw [if_pos hany]
    have hkey : ∀ s : SelRow,
        ((if selKey uid vp s then (⟨uid, vp, step, memo⟩ : SelRow) else s).user_id
            = s.user_id) ∧
        ((if selKey uid vp s then (⟨uid, vp, step, memo⟩ : SelRow) else s).viewpoint
            = s.viewpoint) := by
      intro s
      by_cases hs : selKey uid vp s = true
      · obtain ⟨h1, h2⟩ := selKey_eq hs
        rw [if_pos hs]
        exact ⟨h1.symm, h2.symm⟩
      · rw [if_neg hs]
        exact ⟨rfl, rfl⟩
    refine List.Pairwise.map _ (fun a b hab => ?_) hwf
    have ha := hkey a
    have hb := hkey b
    rw [sameSelKey, ha.1, ha.2, hb.1, hb.2] at *
    exact hab
  · rw [if_neg hany]
    rw [selKeyUnique, List.pairwise_append]
    refine ⟨hwf, List.pairwise_singleton _ _, ?_⟩
    intro a ha b hb
    rw [List.mem_singleton] at hb
    subst hb
    rw [sameSelKey_new]
    cases hx : selKey uid vp a with
    | false => rfl
    | true => exact absurd (List.any_eq_true.mpr ⟨a, ha, hx⟩) hany

/-! ## Claim theorems: selections API -/

/-- C1: an authenticated POST /api/selections whose step lies outside 1..4
or whose viewpoint is not one of the five fixed viewpoints returns a
validation error and leaves the selections table unchanged. -/
theorem postSelections_rejects_invalid (sels : List SelRow) (uid : Nat)
    (vp : List Char) (step : Int) (memo : Option (List Char))
    (h : step < 1 ∨ 4 < step ∨ vp ∉ validViewpoints) :
    (∃ m, (postSelections sels uid vp step memo).1 = ApiResult.badRequest m) ∧
    (postSelections sels uid vp step memo).2 = sels := by
  unfold postSelections
  by_cases h1 : vp = [] ∨ step = 0 ∨ step < 1 ∨ step > 4
  · rw [if_pos h1]
    exact ⟨⟨errInvalidSelection, rfl⟩, rfl⟩
  · rw [if_neg h1]
    have hvp : vp ∉ validViewpoints := by
      rcases h with h | h | h
      · exact absurd (Or.inr (Or.inr (Or.inl h))) h1
      · exact absurd (Or.inr (Or.inr (Or.inr h))) h1
      · exact h
    rw [if_pos hvp]
    exact ⟨⟨errInvalidViewpoint, rfl⟩, rfl⟩

/-- C1 witness: step 5 on the valid viewpoint 'lesson_plan' is rejected
and the table stays empty. -/
theorem postSelections_rejects_invalid_witness :
    (∃ m, (postSelections [] 1 ("lesson_plan".toList) 5 none).1 =
      ApiResult.badRequest m) ∧
    (postSelections [] 1 ("lesson_plan".toList) 5 none).2 = [] :=
  postSelections_rejects_invalid [] 1 ("lesson_plan".toList) 5 none
    (Or.inr (Or.inl (by norm_num)))

/-- C2: performing the selection-set operation twice with the same
(user, viewpoint) key succeeds and leaves exactly one row for that key,
holding the step and memo of the second request, and the table still has
at most one row per key. -/
theorem postSelections_twice_overwrites (sels : List SelRow) (uid : Nat)
    (vp : List Char) (step1 step2 : Int) (memo1 memo2 : Option (List Char))
    (hvp : vp ∈ validViewpoints) (h1lo : 1 ≤ step1) (h1hi : step1 ≤ 4)
    (h2lo : 1 ≤ step2) (h2hi : step2 ≤ 4) (hwf : selKeyUnique sels) :
    (postSelections (postSelections sels uid vp step1 memo1).2
        uid vp step2 memo2).1 = ApiResult.ok ∧
    (postSelections (postSelections sels uid vp step1 memo1).2
        uid vp step2 memo2).2.filter (selKey uid vp) =
      [⟨uid, vp, step2, memo2.getD []⟩] ∧
    selKeyUnique (postSelections (postSelections sels uid vp step1 memo1).2
        uid vp step2 memo2).2 := by
  rw [postSelections_valid sels uid vp step1 memo1 hvp h1lo h1hi]
  rw [postSelections_valid _ uid vp step2 memo2 hvp h2lo h2hi]
  have hwf1 := upsertSelection_keyUnique sels uid vp step1 (memo1.getD []) hwf
  exact ⟨rfl, upsertSelection_filter_key _ uid vp step2 (memo2.getD []) hwf1,
    upsertSelection_keyUnique _ uid vp step2 (memo2.getD []) hwf1⟩

/-- C2 witness: setting ('lesson_plan', step 2) then ('lesson_plan', step 3)
for user 1 leaves the single row with step 3. -/
theorem postSelections_twice_overwrites_witness :
    (postSelections (postSelections [] 1 ("lesson_plan".toList) 2 none).2
        1 ("lesson_plan".toList) 3 none).2.filter
      (selKey 1 ("lesson_plan".toList)) =
      [⟨1, "lesson_plan".toList, 3, []⟩] :=
  (postSelections_twice_overwrites [] 1 ("lesson_plan".toList) 2 3 none none
    (by decide) (by norm_num) (by norm_num) (by norm_num) (by norm_num)
    List.Pairwise.nil).2.1

/-- C3: DELETE /api/selections/:viewpoint always reports success, leaves no
row with the (user, viewpoint) key behind, and running it twice yields the
same result and state as running it once. -/
theorem deleteSelection_idempotent (sels : List SelRow) (uid : Nat)
    (vp : List Char) :
    (deleteSelection sels uid vp).1 = ApiResult.ok ∧
    (∀ s ∈ (deleteSelection sels uid vp).2, selKey uid vp s = false) ∧
    deleteSelection (deleteSelection sels uid vp).2 uid vp =
      deleteSelection sels uid vp := by
  refine ⟨rfl, ?_, ?_⟩
  · intro s hs
    have hmem := List.of_mem_filter hs
    simpa using hmem
  · unfold deleteSelection
    simp [List.filter_filter, Bool.and_self]

/-- The `sessions` invariant enforced by `token TEXT PRIMARY KEY` (and by
`Map` keys in the in-memory variant): no two entries share a token. -/
def tokenUnique (sessions : List Session) : Prop :=
  sessions.Pairwise (fun a b => (a.token == b.token) = false)

/-- Under unique tokens, looking a member's token up finds that member. -/
theorem find_session_of_mem {sessions : List Session} {s : Session}
    (hwf : tokenUnique sessions) (hs : s ∈ sessions) :
    sessions.find? (fun r => r.token == s.token) = some s := by
  induction sessions with
  | nil => cases hs
  | cons h t ih =>
    rw [tokenUnique, List.pairwise_cons] at hwf
    obtain ⟨hh, ht⟩ := hwf
    rcases List.mem_cons.mp hs with rfl | hmem
    · rw [List.find?_cons_of_pos _ (by simp)]
    · rw [List.find?_cons_of_neg _ (by simp [hh s hmem]), ih ht hmem]

/-- Two attendance rows collide on the `UNIQUE(event_id, user_id)` key. -/
def attSameKey (a b : Attendance) : Bool :=
  a.event_id == b.event_id && a.user_id == b.user_id

/-- The invariant enforced by `UNIQUE(event_id, user_id)` on `attendances`. -/
def attKeyUnique (l : List Attendance) : Prop :=
  l.Pairwise (fun a b => attSameKey a b = false)

/-- Unfolding equation of `getUserIdFromToken` when the token is found. -/
theorem getUserId_found {sessions : List Session} {token : List Char}
    {s : Session} (now : Int)
    (hfind : sessions.find? (fun r => r.token == token) = some s) :
    getUserIdFromToken sessions token now =
      if s.expires < now then
        (none, sessions.filter (fun r => !(r.token == token)))
      else (some s.user_id, sessions) := by
  unfold getUserIdFromToken
  rw [hfind]

/-- Unfolding equation of `getUserIdFromToken` when the token is absent. -/
theorem getUserId_notfound {sessions : List Session} {token : List Char}
    (now : Int)
    (hfind : sessions.find? (fun r => r.token == token) = none) :
    getUserIdFromToken sessions token now = (none, sessions) := by
  unfold getUserIdFromToken
  rw [hfind]

/-- Unfolding equation of `register` when a required field is missing. -/
theorem register_err_required (users : List UserRow) (newId : Nat)
    (tok createdAt name school email password : List Char)
    (h1 : name = [] ∨ school = [] ∨ email = [] ∨ password = []) :
    register users newId tok createdAt name school email password =
      (RegResult.err errRegRequired, users) := by
  unfold register
  rw [if_pos h1]

/-- Unfolding equation of `register` when the password is too short. -/
theorem register_err_password (users : List UserRow) (newId : Nat)
    (tok createdAt name school email password : List Char)
    (h1 : ¬(name = [] ∨ school = [] ∨ email = [] ∨ password = []))
    (h2 : password.length < 4) :
    register users newId tok createdAt name school email password =
      (RegResult.err errRegPassword, users) := by
  unfold register
  rw [if_neg h1, if_pos h2]

/-- Unfolding equation of `register` when the email is already taken. -/
theorem register_err_dup (users : List UserRow) (newId : Nat)
    (tok createdAt name school email password : List Char) (w : UserRow)
    (hfind : users.find? (fun v => v.email == email) = some w)
    (h1 : ¬(name = [] ∨ school = [] ∨ email = [] ∨ password = []))
    (h2 : ¬(password.length < 4)) :
    register users newId tok createdAt name school email password =
      (RegResult.err errRegDuplicate, users) := by
  unfold register
  rw [if_neg h1, if_neg h2, hfind]

/-- Unfolding equation of `register` on a fresh email. -/
theorem register_success (users : List UserRow) (newId : Nat)
    (tok createdAt name school email password : List Char)
    (hfind : users.find? (fun v => v.email == email) = none)
    (h1 : ¬(name = [] ∨ school = [] ∨ email = [] ∨ password = []))
    (h2 : ¬(password.length < 4)) :
    register users newId tok createdAt name school email password =
      (RegResult.ok tok ⟨newId, name, school, email, hashPassword password,
          roleMember, createdAt⟩,
        users ++ [⟨newId, name, school, email, hashPassword password,
          roleMember, createdAt⟩]) := by
  unfold register
  rw [if_neg h1, if_neg h2, hfind]

/-- Unfolding equation of `attend` when the active event is found. -/
theorem attend_found {events : List EventRow} {code : List Char}
    {e : EventRow}
    (hfind : events.find? (fun ev => ev.event_code == code && ev.is_active) =
      some e)
    (atts : List Attendance) (uid : Nat) (t : List Char) :
    attend events atts code uid t =
      if atts.any (fun a => a.event_id == e.id && a.user_id == uid) then
        (ApiResult.ok, atts)
      else (ApiResult.ok, atts ++ [⟨e.id, uid, t⟩]) := by
  unfold attend
  rw [hfind]

/-! ## Claim theorems: authentication and admin mutation -/

/-- C4: registering with an email equal to that of an already-registered
user always fails with an error and inserts no user row; when the request
passes the field validations the error is the duplicate-email conflict
message. -/
theorem register_duplicate_email (users : List UserRow) (newId : Nat)
    (tok createdAt name school email password : List Char)
    (hdup : ∃ u ∈ users, u.email = email) :
    (∃ m, (register users newId tok createdAt name school email password).1 =
      RegResult.err m) ∧
    (register users newId tok createdAt name school email password).2 = users ∧
    (name ≠ [] → school ≠ [] → email ≠ [] → 4 ≤ password.length →
      (register users newId tok createdAt name school email password).1 =
        RegResult.err errRegDuplicate) := by
  obtain ⟨u, hu, he⟩ := hdup
  have hfind : ∃ w, users.find? (fun v => v.email == email) = some w := by
    have hsome : (users.find? (fun v => v.email == email)).isSome := by
      rw [List.find?_isSome]
      exact ⟨u, hu, by simp [he]⟩
    exact Option.isSome_iff_exists.mp hsome
  obtain ⟨w, hw⟩ := hfind
  by_cases h1 : name = [] ∨ school = [] ∨ email = [] ∨ password = []
  · rw [register_err_required users newId tok createdAt name school email
      password h1]
    refine ⟨⟨errRegRequired, rfl⟩, rfl, ?_⟩
    intro hn hs hemail hp
    rcases h1 with h | h | h | h
    · exact absurd h hn
    · exact absurd h hs
    · exact absurd h hemail
    · rw [h] at hp
      simp at hp
  · by_cases h2 : password.length < 4
    · rw [register_err_password users newId tok createdAt name school email
        password h1 h2]
      exact ⟨⟨errRegPassword, rfl⟩, rfl, fun _ _ _ hp => absurd h2 (by omega)⟩
    · rw [register_err_dup users newId tok createdAt name school email
        password w hw h1 h2]
      exact ⟨⟨errRegDuplicate, rfl⟩, rfl, fun _ _ _ _ => rfl⟩

/-- C4 witness: re-registering the email 'e@x' is rejected with the
conflict message and the users table is unchanged. -/
theorem register_duplicate_email_witness :
    (register [⟨1, "a".toList, "s".toList, "e@x".toList, [], roleMember, []⟩]
        2 [] [] ("b").toList ("t").toList ("e@x").toList ("pass").toList).2 =
      [⟨1, "a".toList, "s".toList, "e@x".toList, [], roleMember, []⟩] ∧
    (register [⟨1, "a".toList, "s".toList, "e@x".toList, [], roleMember, []⟩]
        2 [] [] ("b").toList ("t").toList ("e@x").toList ("pass").toList).1 =
      RegResult.err errRegDuplicate := by
  have h := register_duplicate_email
    [⟨1, "a".toList, "s".toList, "e@x".toList, [], roleMember, []⟩]
    2 [] [] ("b").toList ("t").toList ("e@x").toList ("pass").toList
    ⟨⟨1, "a".toList, "s".toList, "e@x".toList, [], roleMember, []⟩,
      List.mem_singleton_self _, rfl⟩
  exact ⟨h.2.1, h.2.2 (by decide) (by decide) (by decide) (by decide)⟩

/-- C5: token lookup resolves to a user id only when the token is present
and unexpired; an expired lookup deletes the session row and fails; and
once the token is absent from the store, an authenticated request carrying
it is answered with the 401 session-invalid error. -/
theorem token_lookup_spec (sessions : List Session) (token : List Char)
    (now : Int) (hwf : tokenUnique sessions) :
    (∀ uid st, getUserIdFromToken sessions token now = (some uid, st) →
      ∃ s ∈ sessions, s.token = token ∧ ¬(s.expires < now) ∧ s.user_id = uid) ∧
    (∀ s ∈ sessions, s.token = token → s.expires < now →
      (getUserIdFromToken sessions token now).1 = none ∧
      (∀ r ∈ (getUserIdFromToken sessions token now).2, r.token ≠ token)) ∧
    (∀ users, (∀ s ∈ sessions, s.token ≠ token) →
      authMiddleware users sessions (some token) now =
        (AuthResult.unauthorized errSessionInvalid, sessions)) := by
  refine ⟨?_, ?_, ?_⟩
  · intro uid st h
    cases hfind : sessions.find? (fun s => s.token == token) with
    | none =>
      rw [getUserId_notfound now hfind] at h
      simp at h
    | some s =>
      rw [getUserId_found now hfind] at h
      by_cases hexp : s.expires < now
      · rw [if_pos hexp] at h
        simp at h
      · rw [if_neg hexp] at h
        have huid : s.user_id = uid := by
          have hfst := congrArg Prod.fst h
          simpa using hfst
        have hmem := List.mem_of_find?_eq_some hfind
        have htok : s.token = token := by
          have hp := List.find?_some hfind
          simpa using hp
        exact ⟨s, hmem, htok, hexp, huid⟩
  · intro s hs hst hexp
    have hfind : sessions.find? (fun r => r.token == token) = some s := by
      have hf := find_session_of_mem hwf hs
      rwa [hst] at hf
    rw [getUserId_found now hfind, if_pos hexp]
    refine ⟨rfl, ?_⟩
    intro r hr
    have hq := List.of_mem_filter hr
    simpa using hq
  · intro users hno
    have hfind : sessions.find? (fun r => r.token == token) = none := by
      rw [List.find?_eq_none]
      intro s hs
      simp [hno s hs]
    have hg := getUserId_notfound now hfind
    simp [authMiddleware, hg]

/-- C5 witness: looking up a token whose session expired at instant 100 at
instant 200 fails. -/
theorem token_lookup_spec_witness :
    (getUserIdFromToken [⟨("t").toList, 7, 100⟩] (("t").toList) 200).1 =
      none :=
  ((token_lookup_spec [⟨("t").toList, 7, 100⟩] (("t").toList) 200
      (by simp [tokenUnique])).2.1 ⟨("t").toList, 7, 100⟩
    (List.mem_singleton_self _) rfl (by norm_num)).1

/-- C6: the admin member-delete rejects self-deletion leaving both tables
unchanged; otherwise it succeeds, removes exactly the target's user row and
the target's selections, and keeps every other user row and selection. -/
theorem deleteMember_spec (users : List UserRow) (sels : List SelRow)
    (callerId targetId : Nat) :
    (targetId = callerId →
      deleteMember users sels callerId targetId =
        (ApiResult.badRequest errSelfDelete, users, sels)) ∧
    (targetId ≠ callerId →
      (deleteMember users sels callerId targetId).1 = ApiResult.ok ∧
      (deleteMember users sels callerId targetId).2.1 =
        users.filter (fun u => !(u.id == targetId)) ∧
      (deleteMember users sels callerId targetId).2.2 =
        sels.filter (fun s => !(s.user_id == targetId)) ∧
      (∀ u ∈ (deleteMember users sels callerId targetId).2.1,
        u.id ≠ targetId ∧ u ∈ users) ∧
      (∀ u ∈ users, u.id ≠ targetId →
        u ∈ (deleteMember users sels callerId targetId).2.1) ∧
      (∀ s ∈ (deleteMember users sels callerId targetId).2.2,
        s.user_id ≠ targetId ∧ s ∈ sels) ∧
      (∀ s ∈ sels, s.user_id ≠ targetId →
        s ∈ (deleteMember users sels callerId targetId).2.2)) := by
  constructor
  · intro h
    unfold deleteMember
    rw [if_pos h.symm]
  · intro h
    unfold deleteMember
    rw [if_neg (fun hc => h hc.symm)]
    refine ⟨rfl, rfl, rfl, ?_, ?_, ?_, ?_⟩
    · intro u hu
      exact ⟨by simpa using List.of_mem_filter hu, List.mem_of_mem_filter hu⟩
    · intro u hu hne
      exact List.mem_filter.mpr ⟨hu, by simp [hne]⟩
    · intro s hs
      exact ⟨by simpa using List.of_mem_filter hs, List.mem_of_mem_filter hs⟩
    · intro s hs hne
      exact List.mem_filter.mpr ⟨hs, by simp [hne]⟩

/-- C6 witness: an admin deleting their own id is rejected with no change. -/
theorem deleteMember_spec_witness :
    deleteMember [] [] 1 1 = (ApiResult.badRequest errSelfDelete, [], []) :=
  (deleteMember_spec [] [] 1 1).1 rfl

/-- C9: attendance recording is idempotent.  When the event is found,
recording succeeds; a second recording for the same (event, user) succeeds
and leaves the attendance table exactly as after the first; recording for
an already-attended event returns success with the table unchanged; and
the `UNIQUE(event_id, user_id)` invariant is preserved. -/
theorem attend_idempotent (events : List EventRow) (atts : List Attendance)
    (code : List Char) (uid : Nat) (t1 t2 : List Char) (e : EventRow)
    (hfind : events.find? (fun ev => ev.event_code == code && ev.is_active) =
      some e)
    (hwf : attKeyUnique atts) :
    (attend events atts code uid t1).1 = ApiResult.ok ∧
    (atts.any (fun a => a.event_id == e.id && a.user_id == uid) = true →
      attend events atts code uid t1 = (ApiResult.ok, atts)) ∧
    attend events (attend events atts code uid t1).2 code uid t2 =
      (ApiResult.ok, (attend events atts code uid t1).2) ∧
    attKeyUnique (attend events atts code uid t1).2 := by
  by_cases hany : atts.any (fun a => a.event_id == e.id && a.user_id == uid) =
      true
  · have h1 : attend events atts code uid t1 = (ApiResult.ok, atts) := by
      rw [attend_found hfind atts uid t1, if_pos hany]
    refine ⟨by rw [h1], fun _ => h1, ?_, by rw [h1]; exact hwf⟩
    rw [h1]
    rw [attend_found hfind atts uid t2, if_pos hany]
  · have h1 : attend events atts code uid t1 =
        (ApiResult.ok, atts ++ [⟨e.id, uid, t1⟩]) := by
      rw [attend_found hfind atts uid t1, if_neg hany]
    refine ⟨by rw [h1], fun hc => absurd hc hany, ?_, ?_⟩
    · rw [h1]
      dsimp only
      have hany2 : ((atts ++ [(⟨e.id, uid, t1⟩ : Attendance)]).any
          (fun a => a.event_id == e.id && a.user_id == uid)) = true := by
        rw [List.any_append]
        simp
      rw [attend_found hfind (atts ++ [(⟨e.id, uid, t1⟩ : Attendance)]) uid t2,
        if_pos hany2]
    · rw [h1]
      dsimp only
      rw [attKeyUnique, List.pairwise_append]
      refine ⟨hwf, by simp, ?_⟩
      intro a ha b hb
      rw [List.mem_singleton] at hb
      subst hb
      have hk : (a.event_id == e.id && a.user_id == uid) = false := by
        cases hx : (a.event_id == e.id && a.user_id == uid) with
        | false => rfl
        | true => exact absurd (List.any_eq_true.mpr ⟨a, ha, hx⟩) hany
      simpa [attSameKey] using hk

/-- C9 witness: attending event 'C' twice as user 3 yields the same table
as attending once, with success. -/
theorem attend_idempotent_witness :
    attend [⟨1, [], "C".toList, true⟩]
        (attend [⟨1, [], "C".toList, true⟩] [] ("C").toList 3 []).2
        ("C").toList 3 [] =
      (ApiResult.ok,
        (attend [⟨1, [], "C".toList, true⟩] [] ("C").toList 3 []).2) :=
  (attend_idempotent [⟨1, [], "C".toList, true⟩] [] ("C").toList 3 [] []
    ⟨1, [], "C".toList, true⟩ (by decide) List.Pairwise.nil).2.2.1

/-- C10: every successful registration inserts exactly one user row, whose
role (and the role of the returned user object) is 'member'; every row of
the resulting table was either already present or carries role 'member',
so registration can never create an admin account. -/
theorem register_role_is_member (users : List UserRow) (newId : Nat)
    (tok createdAt name school email password : List Char) (rtok : List Char)
    (u : UserRow)
    (h : (register users newId tok createdAt name school email password).1 =
      RegResult.ok rtok u) :
    u.role = roleMember ∧
    (register users newId tok createdAt name school email password).2 =
      users ++ [u] ∧
    (∀ v ∈ (register users newId tok createdAt name school email password).2,
      v ∈ users ∨ v.role = roleMember) := by
  by_cases h1 : name = [] ∨ school = [] ∨ email = [] ∨ password = []
  · rw [register_err_required users newId tok createdAt name school email
      password h1] at h
    exact absurd h (by simp)
  · by_cases h2 : password.length < 4
    · rw [register_err_password users newId tok createdAt name school email
        password h1 h2] at h
      exact absurd h (by simp)
    · cases hfind : users.find? (fun v => v.email == email) with
      | some w =>
        rw [register_err_dup users newId tok createdAt name school email
          password w hfind h1 h2] at h
        exact absurd h (by simp)
      | none =>
        have heq := register_success users newId tok createdAt name school
          email password hfind h1 h2
        rw [heq] at h
        rw [heq]
        simp only [RegResult.ok.injEq] at h
        obtain ⟨-, hu⟩ := h
        subst hu
        refine ⟨rfl, rfl, ?_⟩
        intro v hv
        rcases List.mem_append.mp hv with hv | hv
        · exact Or.inl hv
        · rw [List.mem_singleton] at hv
          subst hv
          exact Or.inr rfl

/-- C10 witness: a concrete successful registration returns role 'member'
and appends exactly that member row. -/
theorem register_role_is_member_witness :
    (register [] 1 ("tk").toList ("d").toList ("n").toList ("s").toList
        ("e").toList ("pass").toList).2 =
      [] ++ [⟨1, "n".toList, "s".toList, "e".toList,
        "pass_shakaika_salt_2026".toList, roleMember, "d".toList⟩] :=
  (register_role_is_member [] 1 ("tk").toList ("d").toList ("n").toList
    ("s").toList ("e").toList ("pass").toList ("tk").toList
    ⟨1, "n".toList, "s".toList, "e".toList,
      "pass_shakaika_salt_2026".toList, roleMember, "d".toList⟩
    (by decide)).2.1

/-! ## Claim theorems: CSV export -/

/-- Quote-doubling never produces the empty string from a non-empty one. -/
theorem escQuote_eq_nil_iff (v : List Char) : escQuote v = [] ↔ v = [] := by
  cases v with
  | nil => simp [escQuote]
  | cons c rest =>
    constructor
    · intro h
      unfold escQuote at h
      by_cases hc : c = '"'
      · rw [if_pos hc] at h
        cases h
      · rw [if_neg hc] at h
        cases h
    · intro h
      cases h

/-- Collapsing doubled quotes undoes quote-doubling: `escQuote` loses no
information. -/
theorem unescQuote_escQuote (v : List Char) : unescQuote (escQuote v) = v := by
  induction v with
  | nil => rfl
  | cons c rest ih =>
    by_cases hc : c = '"'
    · subst hc
      rw [escQuote, if_pos rfl, unescQuote, if_pos ⟨rfl, rfl⟩, ih]
    · rw [escQuote, if_neg hc]
      cases hesc : escQuote rest with
      | nil =>
        rw [(escQuote_eq_nil_iff rest).mp hesc]
        rfl
      | cons d l =>
        rw [unescQuote, if_neg (fun hx => hc hx.1), ← hesc, ih]

/-- Each viewpoint contributes exactly two cells to a member's record. -/
theorem selCells_length (sels : List SelRow) (uid : Nat) (vp : List Char) :
    (selCells sels uid vp).length = 2 := by
  unfold selCells
  cases selFor sels uid vp <;> rfl

/-- A member's record always has the 15 columns of the header. -/
theorem memberCsvRow_length (sels : List SelRow) (u : UserRow) :
    (memberCsvRow sels u).length = 15 := by
  unfold memberCsvRow
  rw [List.length_append]
  simp [validViewpoints, selCells_length]

/-- C7: the member CSV export consists of the fixed 15-column header record
followed by exactly one data record per user, every record having the
header's column count; the serialised text is the byte-order mark followed
by one rendered line per record; and every rendered field is enclosed in
double quotes around a quote-doubled body from which the original field
value is recoverable. -/
theorem csvExport_spec (users : List UserRow) (sels : List SelRow) :
    (csvRecords users sels).length = users.length + 1 ∧
    csvHeaders =
      ["名前".toList, "学校名".toList, "メールアドレス".toList, "役割".toList,
       "登録日".toList,
       "授業をつくる(ステップ)".toList, "授業をつくる(メモ)".toList,
       "授業をする(ステップ)".toList, "授業をする(メモ)".toList,
       "子供を見る(ステップ)".toList, "子供を見る(メモ)".toList,
       "つながる(ステップ)".toList, "つながる(メモ)".toList,
       "深める(ステップ)".toList, "深める(メモ)".toList] ∧
    (∀ r ∈ csvRecords users sels, r.length = 15) ∧
    csvExport users sels =
      bomChar :: (csvRecords users sels).flatMap
        (fun r => renderLine r ++ ['\n']) ∧
    (∀ r, renderLine r = joinSep [','] (r.map renderField)) ∧
    (∀ v, ∃ w, renderField v = '"' :: w ++ ['"'] ∧ unescQuote w = v) := by
  refine ⟨by simp [csvRecords], by decide, ?_, rfl, fun r => rfl, ?_⟩
  · intro r hr
    rcases List.mem_cons.mp hr with rfl | hr
    · rfl
    · obtain ⟨u, hu, rfl⟩ := List.mem_map.mp hr
      exact memberCsvRow_length sels u
  · intro v
    exact ⟨escQuote v, rfl, unescQuote_escQuote v⟩

/-! ## GROUP_CONCAT parsing: split/join lemmas -/

/-- A split never yields the empty list of pieces. -/
theorem splitColon_ne_nil (l : List Char) : splitColon l ≠ [] := by
  cases l with
  | nil => simp [splitColon]
  | cons c rest =>
    rw [splitColon]
    by_cases hc : c = ':'
    · rw [if_pos hc]
      simp
    · rw [if_neg hc]
      cases h : splitColon rest with
      | nil => simp
      | cons r rs => simp

/-- Splitting on ':' after a colon-free prefix peels the prefix off. -/
theorem splitColon_append {a : List Char} (b : List Char) (ha : ':' ∉ a) :
    splitColon (a ++ ':' :: b) = a :: splitColon b := by
  induction a with
  | nil =>
    rw [List.nil_append, splitColon, if_pos rfl]
  | cons c rest ih =>
    have hc : c ≠ ':' := fun h => ha (h ▸ List.mem_cons_self c rest)
    have hrest : ':' ∉ rest := fun h => ha (List.mem_cons_of_mem c h)
    rw [List.cons_append, splitColon, if_neg hc, ih hrest]

/-- Prepending a character to the first piece prepends it to the join. -/
theorem joinSep_cons_head (sep : List Char) (c : Char) (r : List Char)
    (rs : List (List Char)) :
    joinSep sep ((c :: r) :: rs) = c :: joinSep sep (r :: rs) := by
  cases rs with
  | nil => rfl
  | cons b t => simp [joinSep, List.append_assoc]

/-- Joining the ':'-split back with ':' restores the string: the
`memoParts.join(':')` of the endpoint loses no information. -/
theorem joinSep_splitColon (m : List Char) :
    joinSep [':'] (splitColon m) = m := by
  induction m with
  | nil => rfl
  | cons c rest ih =>
    rw [splitColon]
    by_cases hc : c = ':'
    · rw [if_pos hc]
      cases h : splitColon rest with
      | nil => exact absurd h (splitColon_ne_nil rest)
      | cons r rs =>
        rw [h] at ih
        rw [joinSep, List.nil_append, List.singleton_append, hc, ih]
    · rw [if_neg hc]
      cases h : splitColon rest with
      | nil => exact absurd h (splitColon_ne_nil rest)
      | cons r rs =>
        rw [h] at ih
        show joinSep [':'] ((c :: r) :: rs) = c :: rest
        rw [joinSep_cons_head, ih]

/-- A bar-safe string is left whole by the '||' split. -/
theorem splitBars_single (a : List Char) (h : barSafe a = true) :
    splitBars a = [a] := by
  induction a using barSafe.induct with
  | case1 => rfl
  | case2 c => rfl
  | case3 c d rest hcd =>
    rw [barSafe, if_pos hcd] at h
    simp at h
  | case4 c d rest hcd ih =>
    rw [barSafe, if_neg hcd] at h
    rw [splitBars, if_neg hcd, ih h]

/-- Splitting on '||' after a bar-safe prefix peels the prefix off. -/
theorem splitBars_append (a b : List Char) (h : barSafe a = true) :
    splitBars (a ++ '|' :: '|' :: b) = a :: splitBars b := by
  induction a using barSafe.induct with
  | case1 =>
    rw [List.nil_append, splitBars, if_pos ⟨rfl, rfl⟩]
  | case2 c =>
    have hc : ¬(c = '|' ∧ '|' = '|') := by
      intro hx
      rw [barSafe] at h
      rw [hx.1] at h
      simp at h
    have hsep : splitBars ('|' :: '|' :: b) = [] :: splitBars b := by
      rw [splitBars, if_pos ⟨rfl, rfl⟩]
    rw [List.cons_append, List.nil_append, splitBars, if_neg hc, hsep]
  | case3 c d rest hcd =>
    rw [barSafe, if_pos hcd] at h
    simp at h
  | case4 c d rest hcd ih =>
    rw [barSafe, if_neg hcd] at h
    have ih2 := ih h
    rw [List.cons_append] at ih2
    rw [List.cons_append, List.cons_append, splitBars, if_neg hcd, ih2]

/-- A bar-free prefix keeps a bar-safe string bar-safe. -/
theorem barSafe_append {a : List Char} (b : List Char) (ha : '|' ∉ a)
    (hb : barSafe b = true) : barSafe (a ++ b) = true := by
  induction a with
  | nil => simpa
  | cons c rest ih =>
    have hc : c ≠ '|' := fun h => ha (h ▸ List.mem_cons_self c rest)
    have hrest : '|' ∉ rest := fun h => ha (List.mem_cons_of_mem c h)
    rw [List.cons_append]
    cases hre : rest ++ b with
    | nil =>
      rw [barSafe]
      simp [hc]
    | cons d l =>
      rw [barSafe, if_neg (fun hx => hc hx.1), ← hre]
      exact ih hrest

/-- Splitting the '||'-join of bar-safe pieces restores the pieces. -/
theorem splitBars_joinSep (ps : List (List Char))
    (h : ∀ p ∈ ps, barSafe p = true) (hne : ps ≠ []) :
    splitBars (joinSep ('|' :: ['|']) ps) = ps := by
  induction ps with
  | nil => exact absurd rfl hne
  | cons a t ih =>
    cases t with
    | nil =>
      rw [joinSep]
      rw [splitBars_single a (h a (List.mem_cons_self a []))]
    | cons b t2 =>
      have hsh : joinSep ('|' :: ['|']) (a :: b :: t2) =
          a ++ '|' :: '|' :: joinSep ('|' :: ['|']) (b :: t2) := by
        rw [joinSep, List.append_assoc, List.cons_append, List.cons_append,
          List.nil_append]
      rw [hsh, splitBars_append a _ (h a (List.mem_cons_self a (b :: t2))),
        ih (fun p hp => h p (List.mem_cons_of_mem a hp)) (by simp)]

/-- The join of pieces led by a non-empty piece is non-empty. -/
theorem joinSep_ne_nil (sep : List Char) (a : List Char)
    (t : List (List Char)) (ha : a ≠ []) :
    joinSep sep (a :: t) ≠ [] := by
  cases t with
  | nil => exact ha
  | cons b t2 =>
    rw [joinSep]
    cases a with
    | nil => exact absurd rfl ha
    | cons c r => simp

/-- The five valid viewpoints are non-empty and free of ':' and '|'. -/
theorem validViewpoint_chars {vp : List Char} (h : vp ∈ validViewpoints) :
    vp ≠ [] ∧ ':' ∉ vp ∧ '|' ∉ vp := by
  fin_cases h <;> exact ⟨by decide, by decide, by decide⟩

/-- For an in-range step the decimal rendering is a non-empty digit string
free of ':' and '|', and `parseInt` reads the step back. -/
theorem stepChars_facts {step : Int} (h1 : 1 ≤ step) (h2 : step ≤ 4) :
    jsParseInt (stepChars step) = some step.toNat ∧
    ':' ∉ stepChars step ∧ '|' ∉ stepChars step ∧ stepChars step ≠ [] := by
  interval_cases step <;> exact ⟨by decide, by decide, by decide, by decide⟩

/-- On the piece of a schema-conformant row, the loop body records exactly
that row's viewpoint, step and memo. -/
theorem parseStep_piece (acc : List ParsedSel) (s : SelRow)
    (hvp : s.viewpoint ∈ validViewpoints) (h1 : 1 ≤ s.step)
    (h2 : s.step ≤ 4) :
    parseStep acc (selPiece s) = setEntry acc (toParsed s) := by
  obtain ⟨hne, hcol, hbar⟩ := validViewpoint_chars hvp
  obtain ⟨hparse, hscol, hsbar, hsne⟩ := stepChars_facts h1 h2
  have hshape : selPiece s =
      s.viewpoint ++ ':' :: (stepChars s.step ++ ':' :: s.memo) := by
    rw [selPiece, List.append_assoc, List.cons_append]
  rw [parseStep, hshape, splitColon_append _ hcol, splitColon_append _ hscol]
  show (if s.viewpoint ≠ [] ∧ stepChars s.step ≠ [] then
      setEntry acc ⟨s.viewpoint, jsParseInt (stepChars s.step),
        joinSep [':'] (splitColon s.memo)⟩
    else acc) = setEntry acc (toParsed s)
  rw [if_pos ⟨hne, hsne⟩, hparse, joinSep_splitColon]
  rfl

/-- A bar-safe memo makes the whole piece of a conformant row bar-safe. -/
theorem selPiece_barSafe (s : SelRow) (hvp : s.viewpoint ∈ validViewpoints)
    (h1 : 1 ≤ s.step) (h2 : s.step ≤ 4) (hm : barSafe s.memo = true) :
    barSafe (selPiece s) = true := by
  obtain ⟨hne, hcol, hbar⟩ := validViewpoint_chars hvp
  obtain ⟨hparse, hscol, hsbar, hsne⟩ := stepChars_facts h1 h2
  rw [selPiece]
  have hshape : s.viewpoint ++ ':' :: stepChars s.step ++ ':' :: s.memo =
      (s.viewpoint ++ ':' :: stepChars s.step ++ [':']) ++ s.memo := by
    simp
  rw [hshape]
  refine barSafe_append s.memo ?_ hm
  intro hmem
  rcases List.mem_append.mp hmem with hx | hx
  · rcases List.mem_append.mp hx with hy | hy
    · exact hbar hy
    · rcases List.mem_cons.mp hy with hz | hz
      · cases hz
      · exact hsbar hz
  · rcases List.mem_cons.mp hx with hz | hz
    · cases hz
    · cases hz

/-- When no accumulated entry shares the viewpoint, the object assignment
appends. -/
theorem setEntry_append (m : List ParsedSel) (e : ParsedSel)
    (h : ∀ x ∈ m, x.viewpoint ≠ e.viewpoint) :
    setEntry m e = m ++ [e] := by
  rw [setEntry]
  rw [if_neg ?_]
  intro hx
  obtain ⟨x, hxm, hxe⟩ := List.any_eq_true.mp hx
  exact h x hxm (by simpa using hxe)

/-- Folding the pieces of conformant rows with pairwise-distinct viewpoints
appends their parsed entries in order. -/
theorem foldl_parseStep (l : List SelRow) :
    ∀ acc : List ParsedSel,
      (∀ s ∈ l, s.viewpoint ∈ validViewpoints) →
      (∀ s ∈ l, 1 ≤ s.step ∧ s.step ≤ 4) →
      l.Pairwise (fun a b => a.viewpoint ≠ b.viewpoint) →
      (∀ e ∈ acc, ∀ s ∈ l, e.viewpoint ≠ s.viewpoint) →
      (l.map selPiece).foldl parseStep acc = acc ++ l.map toParsed := by
  induction l with
  | nil =>
    intro acc _ _ _ _
    simp
  | cons s t ih =>
    intro acc hvp hstep hpw hdisj
    rw [List.pairwise_cons] at hpw
    obtain ⟨hsh, hpt⟩ := hpw
    have hs := List.mem_cons_self s t
    rw [List.map_cons, List.foldl_cons,
      parseStep_piece acc s (hvp s hs) (hstep s hs).1 (hstep s hs).2,
      setEntry_append acc (toParsed s) (fun x hx => hdisj x hx s hs)]
    rw [ih (acc ++ [toParsed s])
      (fun r hr => hvp r (List.mem_cons_of_mem s hr))
      (fun r hr => hstep r (List.mem_cons_of_mem s hr))
      hpt ?_]
    · rw [List.append_assoc]
      rfl
    · intro e he r hr
      rcases List.mem_append.mp he with he | he
      · exact hdisj e he r (List.mem_cons_of_mem s hr)
      · rw [List.mem_singleton] at he
        subst he
        exact hsh r hr

/-- The piece of a row with a valid viewpoint is non-empty. -/
theorem selPiece_ne_nil (s : SelRow) (hvp : s.viewpoint ∈ validViewpoints) :
    selPiece s ≠ [] := by
  obtain ⟨hne, -, -⟩ := validViewpoint_chars hvp
  rw [selPiece]
  cases hv : s.viewpoint with
  | nil => exact absurd hv hne
  | cons c r => simp

/-- Parsing the GROUP_CONCAT of schema-conformant rows with bar-safe memos
and pairwise-distinct viewpoints restores the rows exactly. -/
theorem parse_pieces_exact (l : List SelRow)
    (hvp : ∀ s ∈ l, s.viewpoint ∈ validViewpoints)
    (hstep : ∀ s ∈ l, 1 ≤ s.step ∧ s.step ≤ 4)
    (hmemo : ∀ s ∈ l, barSafe s.memo = true)
    (hpw : l.Pairwise (fun a b => a.viewpoint ≠ b.viewpoint)) :
    parseSelectionsRaw (joinSep ('|' :: ['|']) (l.map selPiece)) =
      l.map toParsed := by
  cases l with
  | nil => rfl
  | cons p t =>
    have hp := hvp p (List.mem_cons_self p t)
    have hpne : selPiece p ≠ [] := selPiece_ne_nil p hp
    have hraw := joinSep_ne_nil ('|' :: ['|']) (selPiece p)
      (t.map selPiece) hpne
    have hsafe : ∀ q ∈ (p :: t).map selPiece, barSafe q = true := by
      intro q hq
      obtain ⟨s, hs, rfl⟩ := List.mem_map.mp hq
      exact selPiece_barSafe s (hvp s hs) (hstep s hs).1 (hstep s hs).2
        (hmemo s hs)
    rw [List.map_cons] at hsafe ⊢
    rw [parseSelectionsRaw, if_neg hraw,
      splitBars_joinSep (selPiece p :: t.map selPiece) hsafe (by simp),
      ← List.map_cons,
      foldl_parseStep (p :: t) [] hvp hstep hpw (fun e he => absurd he
        (List.not_mem_nil e)),
      List.nil_append]

/-! ## Claim theorems: admin member list -/

/-- C8 counterexample: a stored memo containing '||' is corrupted by the
member-list parsing.  For the single stored selection
(user 1, 'lesson_plan', step 2, memo 'a||b') — a row the schema and the
POST validation both admit — the returned mapping holds memo 'a' instead of
'a||b', so it does not contain exactly the stored selections. -/
theorem memberSelections_memo_counterexample :
    memberSelections [⟨1, "lesson_plan".toList, 2, "a||b".toList⟩] 1 ≠
      ([(⟨1, "lesson_plan".toList, 2, "a||b".toList⟩ : SelRow)].filter
        (fun s => s.user_id == 1)).map toParsed ∧
    memberSelections [⟨1, "lesson_plan".toList, 2, "a||b".toList⟩] 1 =
      [⟨"lesson_plan".toList, some 2, "a".toList⟩] := by
  constructor
  · decide
  · decide

/-- C8 (amended): for every user, the member-list mapping contains exactly
that user's stored selections — every stored selection with its correct
step and memo and nothing else — provided each of the user's memos never
puts two bars side by side and does not end in a bar (the GROUP_CONCAT
separator '||' makes such memos ambiguous, see the counterexample). -/
theorem memberSelections_exact (sels : List SelRow) (uid : Nat)
    (hvp : ∀ s ∈ sels, s.user_id = uid → s.viewpoint ∈ validViewpoints)
    (hstep : ∀ s ∈ sels, s.user_id = uid → 1 ≤ s.step ∧ s.step ≤ 4)
    (hmemo : ∀ s ∈ sels, s.user_id = uid → barSafe s.memo = true)
    (hwf : selKeyUnique sels) :
    memberSelections sels uid =
      (sels.filter (fun s => s.user_id == uid)).map toParsed := by
  have hmem : ∀ s ∈ sels.filter (fun s => s.user_id == uid),
      s ∈ sels ∧ s.user_id = uid := by
    intro s hs
    exact ⟨List.mem_of_mem_filter hs, by simpa using List.of_mem_filter hs⟩
  have hpw0 : (sels.filter (fun s => s.user_id == uid)).Pairwise
      (fun a b => sameSelKey a b = false) :=
    List.Pairwise.sublist (List.filter_sublist sels) hwf
  have hpw : (sels.filter (fun s => s.user_id == uid)).Pairwise
      (fun a b => a.viewpoint ≠ b.viewpoint) := by
    refine List.Pairwise.imp_of_mem ?_ hpw0
    intro a b ha hb hr hv
    have ha' := (hmem a ha).2
    have hb' := (hmem b hb).2
    have : sameSelKey a b = true := by
      simp [sameSelKey, ha', hb', hv]
    rw [hr] at this
    cases this
  rw [memberSelections, selConcat]
  exact parse_pieces_exact _
    (fun s hs => hvp s (hmem s hs).1 (hmem s hs).2)
    (fun s hs => hstep s (hmem s hs).1 (hmem s hs).2)
    (fun s hs => hmemo s (hmem s hs).1 (hmem s hs).2)
    hpw

/-- C8 witness: for user 1 with selections ('lesson_plan', 2, 'hello') and
('research', 4, '') — and an unrelated row of user 2 — the member-list
mapping is exactly those two selections. -/
theorem memberSelections_exact_witness :
    memberSelections
      [⟨1, "lesson_plan".toList, 2, "hello".toList⟩,
       ⟨2, "connection".toList, 1, "zz".toList⟩,
       ⟨1, "research".toList, 4, []⟩] 1 =
      ([(⟨1, "lesson_plan".toList, 2, "hello".toList⟩ : SelRow),
        ⟨2, "connection".toList, 1, "zz".toList⟩,
        ⟨1, "research".toList, 4, []⟩].filter
        (fun s => s.user_id == 1)).map toParsed :=
  memberSelections_exact
    [⟨1, "lesson_plan".toList, 2, "hello".toList⟩,
     ⟨2, "connection".toList, 1, "zz".toList⟩,
     ⟨1, "research".toList, 4, []⟩] 1
    (by decide) (by decide) (by decide) (by rw [selKeyUnique]; decide)

end Shakaika
